import Mathlib


/-
Verification of the OHLC fetch-and-store pipeline.

The development shallowly embeds the three Python modules of the
repository:

- nifty_ohlc_fetcher.py: symbol registry, single-day fetch-window
  computation, exchange-aware timezone normalization, and the batched
  run loop that writes one artifact per symbol with data;
- send_new_data_to_postgre.py: dataframe cleaning to the canonical
  storage schema, sidecar-metadata symbol resolution, and the bulk
  insert with ON CONFLICT (stock_symbol, date_time) DO NOTHING;
- fetchNplaceData.py: the two-stage orchestrator.

Pure functions are embedded as Lean functions; the external provider,
the filesystem and the database connection are passed in as explicit
parameters (a history function, sidecar state, and an explicit table
of rows, respectively).  Naive datetimes at day granularity are
modelled as integers (Python timedelta day arithmetic is exact integer
day arithmetic on naive datetimes).
-/

/-- A cell value as it appears in a dataframe column or a database row.
Numeric OHLC values are modelled as integers (no claim computes with
fractional parts); `null` models Python None. -/
inductive Val
  | num (q : Int)
  | str (s : String)
  | null
deriving DecidableEq

/- ----------------------------------------------------------------
   Loader: bulk insert with ON CONFLICT (stock_symbol, date_time)
   DO NOTHING  (send_new_data_to_postgre.py, insert_stock_data)
   ---------------------------------------------------------------- -/

/-- The conflict key of a prepared row: its first two entries, which in
the canonical column order are (stock_symbol, date_time). -/
def rowConflictKey (r : List Val) : List Val := r.take 2

/-- True when some row of the table shares the conflict key with r. -/
def keyMem (table : List (List Val)) (r : List Val) : Bool :=
  table.any (fun s => rowConflictKey s == rowConflictKey r)

/-- Insert one row, doing nothing on a (stock_symbol, date_time)
conflict: the semantics of one VALUES tuple under
ON CONFLICT ... DO NOTHING. -/
def insertSingleRow (table : List (List Val)) (r : List Val) : List (List Val) :=
  if keyMem table r then table else table ++ [r]

/-- insert_stock_data: bulk INSERT ... VALUES ... ON CONFLICT
(stock_symbol, date_time) DO NOTHING.  Rows are attempted in order;
a row whose key is already present (in the table or earlier in the
same statement) is skipped. -/
def insert_stock_data (table : List (List Val)) (data : List (List Val)) : List (List Val) :=
  List.foldl insertSingleRow table data

/- ----------------------------------------------------------------
   Fetcher: timezone normalization and fetch windows
   (nifty_ohlc_fetcher.py, fetch_ohlc_data)
   ---------------------------------------------------------------- -/

/-- The two canonical exchange zones used by the fetcher.  Offsets are
modelled as fixed standard-time offsets in minutes east of UTC
(Asia/Kolkata +330, America/New_York -300); daylight-saving
refinements are immaterial to every claim, which concern only which
operation (localize vs convert) is applied and instant preservation. -/
inductive Zone
  | kolkata
  | newYork
deriving DecidableEq

def zoneOffset : Zone → Int
  | Zone.kolkata => 330
  | Zone.newYork => -300

/-- A timezone-aware instant: UTC minutes plus the zone it is
displayed in. -/
structure AwareTime where
  utcMinutes : Int
  zone : Zone
deriving DecidableEq

/-- tz_localize: attach a zone to a naive wall-clock time (minutes),
interpreting the wall time as local time in that zone. -/
def tzLocalize (z : Zone) (wall : Int) : AwareTime :=
  ⟨wall - zoneOffset z, z⟩

/-- tz_convert: change the display zone of an aware time, preserving
the underlying instant. -/
def tzConvert (z : Zone) (t : AwareTime) : AwareTime :=
  ⟨t.utcMinutes, z⟩

/-- One entry of the raw result index: either timezone-naive or
already aware of some zone. -/
inductive RawIndexTime
  | naive (wall : Int)
  | aware (t : AwareTime)
deriving DecidableEq

/-- The canonical zone of a ticker, as the source's branch condition
selects it: Asia/Kolkata when the ticker ends in ".NS",
America/New_York otherwise. -/
def canonicalZone (ticker : String) : Zone :=
  if ticker.endsWith ".NS" then Zone.kolkata else Zone.newYork

/-- The timezone branch of fetch_ohlc_data, entry by entry: branch on
the ticker suffix, then localize a naive index and convert an aware
one to the exchange's zone. -/
def normalizeIndexTime (ticker : String) (t : RawIndexTime) : AwareTime :=
  if ticker.endsWith ".NS" then
    match t with
    | RawIndexTime.naive w => tzLocalize Zone.kolkata w
    | RawIndexTime.aware a => tzConvert Zone.kolkata a
  else
    match t with
    | RawIndexTime.naive w => tzLocalize Zone.newYork w
    | RawIndexTime.aware a => tzConvert Zone.newYork a

/-- A raw provider result: a timestamp index plus opaque data rows. -/
structure RawDF where
  index : List RawIndexTime
  rows : List (List Val)
deriving DecidableEq

/-- A normalized result: every index entry timezone-aware. -/
structure NormDF where
  index : List AwareTime
  rows : List (List Val)
deriving DecidableEq

/-- The outcome of a ticker_obj.history call: an exception, or a
dataframe. -/
inductive HistResult
  | raises
  | ok (df : RawDF)

/-- The body of fetch_ohlc_data after the history call: an exception
yields None (the bare except), an empty frame yields None, and
otherwise the index is normalized entry by entry. -/
def handleHistoryResult (ticker : String) : HistResult → Option NormDF
  | HistResult.raises => none
  | HistResult.ok df =>
      if df.index.isEmpty then none
      else some ⟨df.index.map (normalizeIndexTime ticker), df.rows⟩

/-- fetch_ohlc_data: dates are naive datetimes at day granularity,
modelled as integer day numbers; when start equals end the provider is
called with end = start + 1 day, otherwise with the given end. -/
def fetch_ohlc_data (history : Int → Int → HistResult) (ticker : String)
    (start_d end_d : Int) : Option NormDF :=
  handleHistoryResult ticker
    (if start_d = end_d then history start_d (start_d + 1) else history start_d end_d)

/- ----------------------------------------------------------------
   Fetcher: symbol registry and the run loop
   (nifty_ohlc_fetcher.py, _load_symbols_from_file / run)
   ---------------------------------------------------------------- -/

/-- _load_symbols_from_file: the file content is an Option (none models
FileNotFoundError, caught and turned into the empty list).  A line is
kept when its stripped form is non-empty and the raw line does not
start with the comment marker; kept lines are stripped and suffixed. -/
def load_symbols_from_file (content : Option (List String))
    (exchange_name suffix : String) : List (String × String) :=
  match content with
  | none => []
  | some lines =>
      let symbols := (lines.filter
        (fun line => (line.trim != "") && !(line.startsWith "#"))).map String.trim
      if symbols.isEmpty then []
      else symbols.map (fun s => (s ++ suffix, exchange_name))

/-- _load_all_symbols: NSE symbols (suffix ".NS") followed by SnP
symbols (no suffix). -/
def load_all_symbols (nifty_content sp500_content : Option (List String)) :
    List (String × String) :=
  load_symbols_from_file nifty_content "NSE" ".NS"
    ++ load_symbols_from_file sp500_content "SnP" ""

/-- The per-symbol target date in run: the secondary exchange ("SnP")
reference date is the run base date minus one day, and the target is
the reference date minus past_days. -/
def effective_target_date (base past_days : Int) (exchange : String) : Int :=
  (if exchange = "SnP" then base - 1 else base) - past_days

/-- _sanitize_filename_component: replace forward slashes and strip. -/
def sanitize_filename_component (text : String) : String :=
  (text.replace "/" "-").trim

/-- One iteration of the inner run loop for a (symbol, exchange) pair:
fetch the single-day window at the effective target date; with data,
an artifact (path, normalized frame, exchange tag) is written,
otherwise nothing is. -/
def processSymbol (history : String → Int → Int → HistResult)
    (base past_days : Int) (output_folder : String)
    (se : String × String) : Option (String × NormDF × String) :=
  let target := effective_target_date base past_days se.2
  match fetch_ohlc_data (history se.1) se.1 target target with
  | none => none
  | some df =>
      some (output_folder ++ "/" ++ sanitize_filename_component se.1
              ++ "_daily_ohlc.csv", df, se.2)

/-- The batch partition of run: slices of 20 symbols in order. -/
def symbolBatches : List (String × String) → List (List (String × String))
  | [] => []
  | x :: xs => ((x :: xs).take 20) :: symbolBatches ((x :: xs).drop 20)
termination_by l => l.length
decreasing_by simp; omega

/-- run: process the batches in order, each batch symbol by symbol,
collecting the artifacts written. -/
def run (history : String → Int → Int → HistResult)
    (symbols : List (String × String)) (base past_days : Int)
    (output_folder : String) : List (String × NormDF × String) :=
  ((symbolBatches symbols).map
    (fun batch => batch.filterMap (processSymbol history base past_days output_folder))).flatten

/- ----------------------------------------------------------------
   Loader: dataframe cleaning and sidecar resolution
   (send_new_data_to_postgre.py, clean_dataframe / process_single_file)
   ---------------------------------------------------------------- -/

/-- A dataframe: named columns of values, in order. -/
structure DF where
  cols : List (String × List Val)
deriving DecidableEq

/-- The row count: the length of the first column (0 with no columns). -/
def DF.nrows (df : DF) : Nat :=
  match df.cols with
  | [] => 0
  | c :: _ => c.2.length

/-- Membership test mirroring python's col in df.columns. -/
def hasCol (df : DF) (name : String) : Bool :=
  df.cols.any (fun c => c.1 == name)

/-- The values of the first column named name, when present. -/
def getCol (df : DF) (name : String) : Option (List Val) :=
  (df.cols.find? (fun c => c.1 == name)).map Prod.snd

/-- df[name] = vs: replace the first column of that name, or append a
new one. -/
def setColList : List (String × List Val) → String → List Val → List (String × List Val)
  | [], name, vs => [(name, vs)]
  | c :: cs, name, vs =>
      if c.1 == name then (name, vs) :: cs else c :: setColList cs name vs

def setCol (df : DF) (name : String) (vs : List Val) : DF :=
  ⟨setColList df.cols name vs⟩

/-- df[name] = scalar: broadcast a constant over the row count. -/
def setConstCol (df : DF) (name : String) (v : Val) : DF :=
  setCol df name (List.replicate df.nrows v)

/-- if name not in df.columns: df[name] = default. -/
def fillCol (df : DF) (name : String) (v : Val) : DF :=
  if hasCol df name then df else setConstCol df name v

/-- The column rename map of clean_dataframe. -/
def renameColName (n : String) : String :=
  if n = "Datetime" then "date_time"
  else if n = "Open" then "open"
  else if n = "High" then "high"
  else if n = "Low" then "low"
  else if n = "Close" then "close"
  else if n = "Volume" then "volume"
  else if n = "Dividends" then "dividends"
  else if n = "Stock Splits" then "stock_splits"
  else n

def renameCols (df : DF) : DF :=
  ⟨df.cols.map (fun c => (renameColName c.1, c.2))⟩

/-- Column selection df[[names]]; None models the KeyError raised when
a requested column is absent. -/
def selectColsList (df : DF) : List String → Option (List (String × List Val))
  | [] => some []
  | n :: ns =>
      match getCol df n, selectColsList df ns with
      | some vs, some rest => some ((n, vs) :: rest)
      | _, _ => none

def selectCols (df : DF) (names : List String) : Option DF :=
  (selectColsList df names).map DF.mk

/-- The canonical storage column order returned by clean_dataframe. -/
def storageColumns : List String :=
  ["stock_symbol", "date_time", "open", "high", "low", "close", "volume",
   "dividends", "stock_splits", "stock_exchange"]

/-- clean_dataframe: rename to storage names, fill the optional columns
(dividends/stock_splits with 0.0, stock_exchange with None) when
absent, convert date_time (the conversion function is a parameter of
the embedding), set the stock_symbol column, and select the canonical
column order.  None models an uncaught KeyError. -/
def filledFrame (df : DF) : DF :=
  fillCol (fillCol (fillCol (renameCols df)
    "dividends" (Val.num 0)) "stock_splits" (Val.num 0)) "stock_exchange" Val.null

def clean_dataframe (to_datetime : Val → Val) (df : DF) (stock_symbol : String) :
    Option DF :=
  match getCol (filledFrame df) "date_time" with
  | none => none
  | some dts =>
      selectCols
        (setConstCol (setCol (filledFrame df) "date_time" (dts.map to_datetime))
          "stock_symbol" (Val.str stock_symbol))
        storageColumns

/-- to_records(index=False) followed by the numpy-scalar conversion:
the list of rows of the frame. -/
def prepare_data_for_insert (df : DF) : List (List Val) :=
  (df.cols.map Prod.snd).transpose

/-- extract_stock_symbol: strip the artifact-name suffix. -/
def extract_stock_symbol (file_name : String) : String :=
  file_name.replace "_daily_ohlc.csv" ""

/-- The state of an artifact's sidecar metadata file: absent on disk,
unreadable (json.JSONDecodeError or FileNotFoundError at open time),
or parsed as a JSON object with string fields. -/
inductive SidecarState
  | absent
  | unreadable
  | object (fields : List (String × String))

/-- dict lookup: the value of the first binding of key, if any. -/
def lookupField : List (String × String) → String → Option String
  | [], _ => none
  | kv :: rest, key => if kv.1 = key then some kv.2 else lookupField rest key

/-- The sidecar resolution of process_single_file: the symbol to use
and whether the fallback warning was printed.  An absent sidecar uses
the base symbol silently; an unreadable one warns and falls back; a
parsed object uses info_data.get with the base symbol as default
(silently). -/
def resolve_symbol_to_use (base_symbol : String) : SidecarState → String × Bool
  | SidecarState.absent => (base_symbol, false)
  | SidecarState.unreadable => (base_symbol, true)
  | SidecarState.object fields =>
      ((lookupField fields "descriptive_symbol").getD base_symbol, false)

/-- process_single_file: resolve the identity from the sidecar, skip an
empty frame (returning False), otherwise clean, prepare and insert,
returning True and the new table.  None models an uncaught exception
escaping the function. -/
def process_single_file (to_datetime : Val → Val) (file_name : String)
    (sidecar : SidecarState) (df : DF) (table : List (List Val)) :
    Option (Bool × List (List Val)) :=
  let base_symbol := extract_stock_symbol file_name
  let resolved := resolve_symbol_to_use base_symbol sidecar
  if df.nrows = 0 then some (false, table)
  else
    match clean_dataframe to_datetime df resolved.1 with
    | none => none
    | some cleaned =>
        some (true, insert_stock_data table (prepare_data_for_insert cleaned))

/-- The columns required of an artifact for cleaning to succeed
(date_time may arrive under its raw name Datetime, handled by the
rename). -/
def requiredColsPresent (df : DF) : Prop :=
  hasCol (renameCols df) "date_time" = true
  ∧ hasCol (renameCols df) "open" = true
  ∧ hasCol (renameCols df) "high" = true
  ∧ hasCol (renameCols df) "low" = true
  ∧ hasCol (renameCols df) "close" = true
  ∧ hasCol (renameCols df) "volume" = true

instance (df : DF) : Decidable (requiredColsPresent df) := by
  unfold requiredColsPresent; infer_instance

/-- A sample one-row artifact frame as read from a fetcher CSV, used to
instantiate the loader theorems. -/
def sampleArtifactDF : DF :=
  ⟨[("Datetime", [Val.num 540]), ("Open", [Val.num 100]),
    ("High", [Val.num 110]), ("Low", [Val.num 90]),
    ("Close", [Val.num 105]), ("Volume", [Val.num 1000])]⟩

/- ----------------------------------------------------------------
   Orchestrator (fetchNplaceData.py, run_script / main_pipeline)
   ---------------------------------------------------------------- -/

/-- The outcome of running one stage script as a subprocess: the script
file is missing, the process exited non-zero (CalledProcessError), an
unexpected exception occurred, or the process completed. -/
inductive ScriptOutcome
  | fileMissing
  | processFailed (returncode : Int) (out err : String)
  | unexpectedError (msg : String)
  | completed (out err : String)

/-- run_script: True exactly when the subprocess ran to completion;
every handled failure path returns False. -/
def run_script : ScriptOutcome → Bool
  | ScriptOutcome.completed _ _ => true
  | _ => false

/-- main_pipeline: run the fetch stage; on failure exit with code 1
without starting the load stage; otherwise run the load stage, exiting
1 on its failure and 0 on success.  The result is (whether the load
stage was started, the exit code). -/
def main_pipeline (fetch_outcome load_outcome : ScriptOutcome) : Bool × Nat :=
  if run_script fetch_outcome = false then (false, 1)
  else if run_script load_outcome = false then (true, 1)
  else (true, 0)

lemma keyMem_append (t s : List (List Val)) (r : List Val) :
    keyMem (t ++ s) r = (keyMem t r || keyMem s r) := by
  simp [keyMem, List.any_append]

lemma insert_stock_data_cons (t : List (List Val)) (r : List Val) (d : List (List Val)) :
    insert_stock_data t (r :: d) = insert_stock_data (insertSingleRow t r) d := rfl

lemma insert_stock_data_extends :
    ∀ (d : List (List Val)) (t : List (List Val)),
      ∃ s, insert_stock_data t d = t ++ s
  | [], t => ⟨[], by simp [insert_stock_data]⟩
  | r :: d, t => by
      obtain ⟨s, hs⟩ := insert_stock_data_extends d (insertSingleRow t r)
      rw [insert_stock_data_cons, hs]
      by_cases h : keyMem t r
      · have ht : insertSingleRow t r = t := by simp [insertSingleRow, h]
        exact ⟨s, by rw [ht]⟩
      · have ht : insertSingleRow t r = t ++ [r] := by simp [insertSingleRow, h]
        exact ⟨[r] ++ s, by rw [ht, List.append_assoc]⟩

lemma keyMem_insert_stock_data {t : List (List Val)} {r : List Val}
    (d : List (List Val)) (h : keyMem t r = true) :
    keyMem (insert_stock_data t d) r = true := by
  obtain ⟨s, hs⟩ := insert_stock_data_extends d t
  rw [hs, keyMem_append, h, Bool.true_or]

lemma keyMem_insertSingleRow_self (t : List (List Val)) (r : List Val) :
    keyMem (insertSingleRow t r) r = true := by
  by_cases h : keyMem t r
  · have ht : insertSingleRow t r = t := by simp [insertSingleRow, h]
    rw [ht]; exact h
  · have ht : insertSingleRow t r = t ++ [r] := by simp [insertSingleRow, h]
    have h1 : keyMem [r] r = true := by simp [keyMem]
    rw [ht, keyMem_append, h1, Bool.or_true]

lemma keyMem_after_insert :
    ∀ (d : List (List Val)) (t : List (List Val)) (r : List Val),
      r ∈ d → keyMem (insert_stock_data t d) r = true
  | [], _, _, h => by cases h
  | x :: d, t, r, h => by
      rcases List.mem_cons.mp h with h1 | h2
      · subst h1
        have : keyMem (insertSingleRow t r) r = true := keyMem_insertSingleRow_self t r
        simpa [insert_stock_data] using keyMem_insert_stock_data d this
      · simpa [insert_stock_data] using keyMem_after_insert d (insertSingleRow t x) r h2

lemma insert_stock_data_noop :
    ∀ (d : List (List Val)) (t : List (List Val)),
      (∀ r ∈ d, keyMem t r = true) → insert_stock_data t d = t
  | [], _, _ => rfl
  | r :: d, t, h => by
      have hr : keyMem t r = true := h r (List.mem_cons_self r d)
      have step : insertSingleRow t r = t := by simp [insertSingleRow, hr]
      have ih := insert_stock_data_noop d t (fun x hx => h x (List.mem_cons_of_mem r hx))
      simpa [insert_stock_data, step] using ih

/-- C1: loading the same row batch into storage twice yields exactly the
same stored rows as loading it once: the bulk insert carries
ON CONFLICT (stock_symbol, date_time) DO NOTHING, so every row of the
batch already has its composite key present after the first load and
the second load changes nothing. -/
theorem insert_stock_data_idempotent (table data : List (List Val)) :
    insert_stock_data (insert_stock_data table data) data
      = insert_stock_data table data :=
  insert_stock_data_noop data (insert_stock_data table data)
    (fun r hr => keyMem_after_insert data table r hr)

/-- C2: timezone normalization is branch-exact.  A naive index entry is
localized to the ticker's canonical zone (Asia/Kolkata for tickers
ending in ".NS", America/New_York otherwise) keeping its wall time; an
aware entry is converted to that zone preserving its instant; and a
non-empty successful fetch normalizes its whole index this way. -/
theorem timezone_normalization_branch_exact (ticker : String) (w : Int)
    (a : AwareTime) (t : RawIndexTime) (ts : List RawIndexTime)
    (rows : List (List Val)) :
    normalizeIndexTime ticker (RawIndexTime.naive w) = tzLocalize (canonicalZone ticker) w
    ∧ normalizeIndexTime ticker (RawIndexTime.aware a) = tzConvert (canonicalZone ticker) a
    ∧ (normalizeIndexTime ticker (RawIndexTime.aware a)).utcMinutes = a.utcMinutes
    ∧ (normalizeIndexTime ticker (RawIndexTime.naive w)).zone = canonicalZone ticker
    ∧ (normalizeIndexTime ticker (RawIndexTime.naive w)).utcMinutes
        = w - zoneOffset (canonicalZone ticker)
    ∧ handleHistoryResult ticker (HistResult.ok ⟨t :: ts, rows⟩)
        = some ⟨(t :: ts).map (normalizeIndexTime ticker), rows⟩ := by
  cases h : ticker.endsWith ".NS" <;>
    simp [normalizeIndexTime, canonicalZone, h, tzLocalize, tzConvert,
      handleHistoryResult]

/-- C3: a single-day request (start = end = D) queries the provider
with the window [D, D+1): the same call the explicit two-day request
(D, D+1) makes. -/
theorem single_day_fetch_window (history : Int → Int → HistResult)
    (ticker : String) (D : Int) :
    fetch_ohlc_data history ticker D D
        = handleHistoryResult ticker (history D (D + 1))
    ∧ fetch_ohlc_data history ticker D D
        = fetch_ohlc_data history ticker D (D + 1) := by
  constructor
  · simp [fetch_ohlc_data]
  · have hne : D ≠ D + 1 := by omega
    simp [fetch_ohlc_data, hne]

/-- C6: a missing symbol-list source contributes the empty list without
error, and the overall universe is then exactly the other source's
contribution. -/
theorem missing_symbol_source_empty (exchange_name suffix : String)
    (c : Option (List String)) :
    load_symbols_from_file none exchange_name suffix = []
    ∧ load_all_symbols none c = load_symbols_from_file c "SnP" ""
    ∧ load_all_symbols c none = load_symbols_from_file c "NSE" ".NS" := by
  refine ⟨rfl, ?_, ?_⟩ <;> simp [load_all_symbols, load_symbols_from_file]

/-- C4: with run base date B and offset p, the target fetch date is
B - p for an NSE symbol and B - 1 - p for an SnP symbol: the secondary
exchange's reference date sits exactly one calendar day earlier. -/
theorem secondary_exchange_date_shift (B p : Int) :
    effective_target_date B p "NSE" = B - p
    ∧ effective_target_date B p "SnP" = B - 1 - p := by
  constructor
  · show (if ("NSE" : String) = "SnP" then B - 1 else B) - p = B - p
    rw [if_neg (by decide)]
  · show (if ("SnP" : String) = "SnP" then B - 1 else B) - p = B - 1 - p
    rw [if_pos rfl]

lemma symbolBatches_flatten :
    ∀ l : List (String × String), (symbolBatches l).flatten = l
  | [] => by simp [symbolBatches]
  | x :: xs => by
      rw [symbolBatches]
      have ih := symbolBatches_flatten ((x :: xs).drop 20)
      simp only [List.flatten_cons, ih]
      exact List.take_append_drop 20 (x :: xs)
termination_by l => l.length
decreasing_by simp; omega

lemma map_filterMap_flatten {α β : Type} (f : α → Option β) :
    ∀ ls : List (List α),
      (ls.map (fun b => b.filterMap f)).flatten = ls.flatten.filterMap f
  | [] => rfl
  | b :: ls => by
      rw [List.map_cons, List.flatten_cons, List.flatten_cons,
        List.filterMap_append, map_filterMap_flatten f ls]

lemma run_eq_filterMap (history : String → Int → Int → HistResult)
    (symbols : List (String × String)) (base past_days : Int)
    (output_folder : String) :
    run history symbols base past_days output_folder
      = symbols.filterMap (processSymbol history base past_days output_folder) := by
  rw [run, map_filterMap_flatten, symbolBatches_flatten]

/-- C8: a symbol whose provider call raises or returns an empty frame
yields no data (fetch_ohlc_data is None), no artifact is written for
that occurrence, and the run's output is exactly what the surrounding
symbols produce. -/
theorem fetch_failure_skips_symbol (history : String → Int → Int → HistResult)
    (pre post : List (String × String)) (sym exch output_folder : String)
    (base p : Int)
    (h : history sym (effective_target_date base p exch)
            (effective_target_date base p exch + 1) = HistResult.raises
         ∨ ∃ df, history sym (effective_target_date base p exch)
                  (effective_target_date base p exch + 1) = HistResult.ok df
                ∧ df.index = []) :
    fetch_ohlc_data (history sym) sym (effective_target_date base p exch)
        (effective_target_date base p exch) = none
    ∧ run history (pre ++ (sym, exch) :: post) base p output_folder
        = run history pre base p output_folder
          ++ run history post base p output_folder := by
  have hfetch : fetch_ohlc_data (history sym) sym
      (effective_target_date base p exch)
      (effective_target_date base p exch) = none := by
    rcases h with h1 | ⟨df, h2, hidx⟩
    · simp [fetch_ohlc_data, h1, handleHistoryResult]
    · simp [fetch_ohlc_data, h2, handleHistoryResult, hidx]
  refine ⟨hfetch, ?_⟩
  have hnone : processSymbol history base p output_folder (sym, exch) = none := by
    simp [processSymbol, hfetch]
  rw [run_eq_filterMap, run_eq_filterMap, run_eq_filterMap,
    List.filterMap_append]
  simp [hnone]

lemma getCol_cons (c : String × List Val) (cs : List (String × List Val))
    (name : String) :
    getCol ⟨c :: cs⟩ name = if c.1 = name then some c.2 else getCol ⟨cs⟩ name := by
  by_cases h : c.1 = name <;> simp [getCol, List.find?_cons, h]

lemma hasCol_cons (c : String × List Val) (cs : List (String × List Val))
    (name : String) :
    hasCol ⟨c :: cs⟩ name = (decide (c.1 = name) || hasCol ⟨cs⟩ name) := by
  by_cases h : c.1 = name <;> simp [hasCol, h]

lemma hasCol_eq_isSome :
    ∀ (cols : List (String × List Val)) (name : String),
      hasCol ⟨cols⟩ name = (getCol ⟨cols⟩ name).isSome
  | [], name => rfl
  | c :: cs, name => by
      rw [hasCol_cons, getCol_cons]
      by_cases h : c.1 = name <;>
        simp [h, hasCol_eq_isSome cs name]

lemma getCol_setColList_self :
    ∀ (cols : List (String × List Val)) (name : String) (vs : List Val),
      getCol ⟨setColList cols name vs⟩ name = some vs
  | [], name, vs => by simp [setColList, getCol, List.find?_cons]
  | c :: cs, name, vs => by
      by_cases h : c.1 = name
      · simp [setColList, h, getCol, List.find?_cons]
      · have hb : (c.1 == name) = false := by simp [h]
        rw [setColList, if_neg (by simp [hb]), getCol_cons,
          if_neg h, getCol_setColList_self cs name vs]

lemma getCol_setColList_ne :
    ∀ (cols : List (String × List Val)) (name m : String) (vs : List Val),
      m ≠ name →
      getCol ⟨setColList cols name vs⟩ m = getCol ⟨cols⟩ m
  | [], name, m, vs, h => by
      show getCol ⟨[(name, vs)]⟩ m = getCol ⟨[]⟩ m
      rw [getCol_cons, if_neg (fun hh : name = m => h hh.symm)]
  | c :: cs, name, m, vs, h => by
      by_cases hc : c.1 = name
      · rw [setColList, if_pos (by simp [hc]), getCol_cons, getCol_cons,
          if_neg (fun hh => h hh.symm), if_neg (by rw [hc]; exact fun hh => h hh.symm)]
      · rw [setColList, if_neg (by simp [hc]), getCol_cons, getCol_cons,
          getCol_setColList_ne cs name m vs h]

lemma getCol_setCol_self (df : DF) (name : String) (vs : List Val) :
    getCol (setCol df name vs) name = some vs :=
  getCol_setColList_self df.cols name vs

lemma getCol_setCol_ne (df : DF) (name m : String) (vs : List Val)
    (h : m ≠ name) :
    getCol (setCol df name vs) m = getCol df m :=
  getCol_setColList_ne df.cols name m vs h

lemma nrows_setConstCol (df : DF) (name : String) (v : Val) :
    (setConstCol df name v).nrows = df.nrows := by
  obtain ⟨cols⟩ := df
  cases cols with
  | nil => rfl
  | cons c cs =>
      by_cases h : c.1 = name <;>
        simp [setConstCol, setCol, setColList, h, DF.nrows]

lemma nrows_fillCol (df : DF) (name : String) (v : Val) :
    (fillCol df name v).nrows = df.nrows := by
  unfold fillCol
  by_cases h : hasCol df name <;> simp [h, nrows_setConstCol]

lemma getCol_fillCol_ne (df : DF) (name m : String) (v : Val) (h : m ≠ name) :
    getCol (fillCol df name v) m = getCol df m := by
  unfold fillCol
  by_cases hc : hasCol df name
  · simp [hc]
  · simp only [hc, Bool.false_eq_true, if_false]
    exact getCol_setColList_ne df.cols name m _ h

lemma hasCol_fillCol_ne (df : DF) (name m : String) (v : Val) (h : m ≠ name) :
    hasCol (fillCol df name v) m = hasCol df m := by
  have h1 := hasCol_eq_isSome (fillCol df name v).cols m
  have h2 := hasCol_eq_isSome df.cols m
  rw [h1, h2, getCol_fillCol_ne df name m v h]

lemma getCol_fillCol_self (df : DF) (name : String) (v : Val) :
    ∃ vs, getCol (fillCol df name v) name = some vs
      ∧ (hasCol df name = false → vs = List.replicate df.nrows v) := by
  by_cases hc : hasCol df name
  · have hs : (getCol df name).isSome := by
      rw [← hasCol_eq_isSome df.cols name]; exact hc
    obtain ⟨vs, hvs⟩ := Option.isSome_iff_exists.mp hs
    refine ⟨vs, by simp [fillCol, hc, hvs], fun hf => ?_⟩
    rw [hc] at hf; cases hf
  · refine ⟨List.replicate df.nrows v, ?_, fun _ => rfl⟩
    simp only [fillCol, hc, Bool.false_eq_true, if_false]
    exact getCol_setColList_self df.cols name _

lemma nrows_setCol_len (df : DF) (name : String) (vs vvs : List Val)
    (hget : getCol df name = some vs) (hlen : vvs.length = vs.length) :
    (setCol df name vvs).nrows = df.nrows := by
  obtain ⟨cols⟩ := df
  cases cols with
  | nil => cases hget
  | cons c cs =>
      by_cases h : c.1 = name
      · rw [getCol_cons, if_pos h] at hget
        have hvs : vs = c.2 := by injection hget with h2; exact h2.symm
        simp [setCol, setColList, h, DF.nrows, hlen, hvs]
      · simp [setCol, setColList, h, DF.nrows]

lemma selectColsList_names :
    ∀ (names : List String) (df : DF) (l : List (String × List Val)),
      selectColsList df names = some l → l.map Prod.fst = names
  | [], _, l, h => by
      simp only [selectColsList] at h
      injection h with h; rw [← h]; rfl
  | n :: ns, df, l, h => by
      cases hg : getCol df n with
      | none => rw [selectColsList, hg] at h; cases h
      | some vs =>
          cases hs : selectColsList df ns with
          | none => rw [selectColsList, hg, hs] at h; cases h
          | some rest =>
              rw [selectColsList, hg, hs] at h
              injection h with h
              rw [← h, List.map_cons, selectColsList_names ns df rest hs]

lemma selectColsList_getCol :
    ∀ (names : List String) (df : DF) (l : List (String × List Val)) (m : String),
      selectColsList df names = some l → m ∈ names →
      getCol ⟨l⟩ m = getCol df m
  | [], _, _, m, _, hm => by cases hm
  | n :: ns, df, l, m, h, hm => by
      cases hg : getCol df n with
      | none => rw [selectColsList, hg] at h; cases h
      | some vs =>
          cases hs : selectColsList df ns with
          | none => rw [selectColsList, hg, hs] at h; cases h
          | some rest =>
              rw [selectColsList, hg, hs] at h
              injection h with h
              rw [← h, getCol_cons]
              by_cases hnm : n = m
              · rw [if_pos hnm, ← hnm, hg]
              · rw [if_neg hnm]
                have hm2 : m ∈ ns := by
                  rcases List.mem_cons.mp hm with h1 | h2
                  · exact absurd h1.symm hnm
                  · exact h2
                exact selectColsList_getCol ns df rest m hs hm2

lemma selectColsList_total :
    ∀ (names : List String) (df : DF),
      (∀ n ∈ names, (getCol df n).isSome) →
      ∃ l, selectColsList df names = some l
  | [], _, _ => ⟨[], rfl⟩
  | n :: ns, df, h => by
      have hn : (getCol df n).isSome := h n (List.mem_cons_self n ns)
      obtain ⟨vs, hvs⟩ := Option.isSome_iff_exists.mp hn
      obtain ⟨rest, hrest⟩ := selectColsList_total ns df
        (fun x hx => h x (List.mem_cons_of_mem n hx))
      exact ⟨(n, vs) :: rest, by rw [selectColsList, hvs, hrest]⟩

lemma getCol_filledFrame_ne (df : DF) (m : String)
    (h1 : m ≠ "dividends") (h2 : m ≠ "stock_splits") (h3 : m ≠ "stock_exchange") :
    getCol (filledFrame df) m = getCol (renameCols df) m := by
  unfold filledFrame
  rw [getCol_fillCol_ne _ _ _ _ h3, getCol_fillCol_ne _ _ _ _ h2,
    getCol_fillCol_ne _ _ _ _ h1]

lemma nrows_filledFrame (df : DF) :
    (filledFrame df).nrows = (renameCols df).nrows := by
  unfold filledFrame
  rw [nrows_fillCol, nrows_fillCol, nrows_fillCol]

lemma getCol_cleanChain (df : DF) (m : String) (td : Val → Val)
    (dts : List Val) (sym : String)
    (h4 : m ≠ "date_time") (h5 : m ≠ "stock_symbol") :
    getCol (setConstCol (setCol (filledFrame df) "date_time" (dts.map td))
        "stock_symbol" (Val.str sym)) m
      = getCol (filledFrame df) m := by
  have ha := getCol_setCol_ne
    (setCol (filledFrame df) "date_time" (dts.map td)) "stock_symbol" m
    (List.replicate (setCol (filledFrame df) "date_time" (dts.map td)).nrows
      (Val.str sym)) h5
  have hb := getCol_setCol_ne (filledFrame df) "date_time" m (dts.map td) h4
  exact ha.trans hb

lemma clean_dataframe_spec (td : Val → Val) (df : DF) (sym : String)
    (hreq : requiredColsPresent df) :
    ∃ out, clean_dataframe td df sym = some out
      ∧ out.cols.map Prod.fst = storageColumns
      ∧ getCol out "stock_symbol"
          = some (List.replicate (renameCols df).nrows (Val.str sym))
      ∧ (hasCol (renameCols df) "dividends" = false →
          getCol out "dividends"
            = some (List.replicate (renameCols df).nrows (Val.num 0)))
      ∧ (hasCol (renameCols df) "stock_splits" = false →
          getCol out "stock_splits"
            = some (List.replicate (renameCols df).nrows (Val.num 0)))
      ∧ (hasCol (renameCols df) "stock_exchange" = false →
          getCol out "stock_exchange"
            = some (List.replicate (renameCols df).nrows Val.null)) := by
  obtain ⟨hdt, hopen, hhigh, hlow, hclose, hvol⟩ := hreq
  obtain ⟨dts, hdts⟩ := Option.isSome_iff_exists.mp
    ((hasCol_eq_isSome (renameCols df).cols "date_time") ▸ hdt)
  obtain ⟨ov, hov⟩ := Option.isSome_iff_exists.mp
    ((hasCol_eq_isSome (renameCols df).cols "open") ▸ hopen)
  obtain ⟨hv, hhv⟩ := Option.isSome_iff_exists.mp
    ((hasCol_eq_isSome (renameCols df).cols "high") ▸ hhigh)
  obtain ⟨lv, hlv⟩ := Option.isSome_iff_exists.mp
    ((hasCol_eq_isSome (renameCols df).cols "low") ▸ hlow)
  obtain ⟨cv, hcv⟩ := Option.isSome_iff_exists.mp
    ((hasCol_eq_isSome (renameCols df).cols "close") ▸ hclose)
  obtain ⟨vv, hvv⟩ := Option.isSome_iff_exists.mp
    ((hasCol_eq_isSome (renameCols df).cols "volume") ▸ hvol)
  have hE_dt : getCol (filledFrame df) "date_time" = some dts := by
    rw [getCol_filledFrame_ne df _ (by decide) (by decide) (by decide), hdts]
  -- the frame after the date_time conversion and the stock_symbol set
  have hnF : (setCol (filledFrame df) "date_time" (dts.map td)).nrows
      = (renameCols df).nrows := by
    rw [nrows_setCol_len (filledFrame df) "date_time" dts (dts.map td) hE_dt
      (by simp), nrows_filledFrame]
  have hG_sym : getCol (setConstCol (setCol (filledFrame df) "date_time"
        (dts.map td)) "stock_symbol" (Val.str sym)) "stock_symbol"
      = some (List.replicate (renameCols df).nrows (Val.str sym)) := by
    rw [show setConstCol (setCol (filledFrame df) "date_time" (dts.map td))
        "stock_symbol" (Val.str sym)
      = setCol (setCol (filledFrame df) "date_time" (dts.map td)) "stock_symbol"
          (List.replicate (setCol (filledFrame df) "date_time"
            (dts.map td)).nrows (Val.str sym)) from rfl]
    rw [getCol_setCol_self, hnF]
  have hG_dt : getCol (setConstCol (setCol (filledFrame df) "date_time"
        (dts.map td)) "stock_symbol" (Val.str sym)) "date_time"
      = some (dts.map td) := by
    have h1 := getCol_setCol_ne (setCol (filledFrame df) "date_time" (dts.map td))
      "stock_symbol" "date_time"
      (List.replicate (setCol (filledFrame df) "date_time" (dts.map td)).nrows
        (Val.str sym)) (by decide)
    refine Eq.trans ?_ (getCol_setCol_self (filledFrame df) "date_time" (dts.map td))
    exact h1
  obtain ⟨dv, hdvB, hdvR⟩ := getCol_fillCol_self (renameCols df) "dividends" (Val.num 0)
  have hE_div : getCol (filledFrame df) "dividends" = some dv := by
    unfold filledFrame
    rw [getCol_fillCol_ne _ _ _ _ (by decide), getCol_fillCol_ne _ _ _ _ (by decide)]
    exact hdvB
  obtain ⟨sv, hsvC, hsvR⟩ := getCol_fillCol_self
    (fillCol (renameCols df) "dividends" (Val.num 0)) "stock_splits" (Val.num 0)
  have hE_split : getCol (filledFrame df) "stock_splits" = some sv := by
    unfold filledFrame
    rw [getCol_fillCol_ne _ _ _ _ (by decide)]
    exact hsvC
  obtain ⟨ev, hevE, hevR⟩ := getCol_fillCol_self
    (fillCol (fillCol (renameCols df) "dividends" (Val.num 0)) "stock_splits"
      (Val.num 0)) "stock_exchange" Val.null
  have hE_exch : getCol (filledFrame df) "stock_exchange" = some ev := hevE
  have hG_div := (getCol_cleanChain df "dividends" td dts sym (by decide)
    (by decide)).trans hE_div
  have hG_split := (getCol_cleanChain df "stock_splits" td dts sym (by decide)
    (by decide)).trans hE_split
  have hG_exch := (getCol_cleanChain df "stock_exchange" td dts sym (by decide)
    (by decide)).trans hE_exch
  have hG_open := (getCol_cleanChain df "open" td dts sym (by decide)
    (by decide)).trans ((getCol_filledFrame_ne df "open" (by decide) (by decide)
    (by decide)).trans hov)
  have hG_high := (getCol_cleanChain df "high" td dts sym (by decide)
    (by decide)).trans ((getCol_filledFrame_ne df "high" (by decide) (by decide)
    (by decide)).trans hhv)
  have hG_low := (getCol_cleanChain df "low" td dts sym (by decide)
    (by decide)).trans ((getCol_filledFrame_ne df "low" (by decide) (by decide)
    (by decide)).trans hlv)
  have hG_close := (getCol_cleanChain df "close" td dts sym (by decide)
    (by decide)).trans ((getCol_filledFrame_ne df "close" (by decide) (by decide)
    (by decide)).trans hcv)
  have hG_vol := (getCol_cleanChain df "volume" td dts sym (by decide)
    (by decide)).trans ((getCol_filledFrame_ne df "volume" (by decide) (by decide)
    (by decide)).trans hvv)
  have hAll : ∀ n ∈ storageColumns,
      (getCol (setConstCol (setCol (filledFrame df) "date_time" (dts.map td))
        "stock_symbol" (Val.str sym)) n).isSome := by
    intro n hn
    simp only [storageColumns, List.mem_cons, List.not_mem_nil, or_false] at hn
    rcases hn with rfl | rfl | rfl | rfl | rfl | rfl | rfl | rfl | rfl | rfl
    · rw [hG_sym]; rfl
    · rw [hG_dt]; rfl
    · rw [hG_open]; rfl
    · rw [hG_high]; rfl
    · rw [hG_low]; rfl
    · rw [hG_close]; rfl
    · rw [hG_vol]; rfl
    · rw [hG_div]; rfl
    · rw [hG_split]; rfl
    · rw [hG_exch]; rfl
  obtain ⟨l, hl⟩ := selectColsList_total storageColumns _ hAll
  refine ⟨⟨l⟩, ?_, selectColsList_names storageColumns _ l hl, ?_, ?_, ?_, ?_⟩
  · show (match getCol (filledFrame df) "date_time" with
      | none => none
      | some dts =>
          selectCols
            (setConstCol (setCol (filledFrame df) "date_time" (dts.map td))
              "stock_symbol" (Val.str sym))
            storageColumns) = some ⟨l⟩
    rw [hE_dt]
    show selectCols (setConstCol (setCol (filledFrame df) "date_time"
      (dts.map td)) "stock_symbol" (Val.str sym)) storageColumns = some ⟨l⟩
    rw [selectCols, hl]; rfl
  · rw [selectColsList_getCol storageColumns _ l "stock_symbol" hl
      (by simp [storageColumns]), hG_sym]
  · intro habs
    rw [selectColsList_getCol storageColumns _ l "dividends" hl
      (by simp [storageColumns]), hG_div, hdvR habs]
  · intro habs
    have habsB : hasCol (fillCol (renameCols df) "dividends" (Val.num 0))
        "stock_splits" = false := by
      rw [hasCol_fillCol_ne _ _ _ _ (by decide)]; exact habs
    rw [selectColsList_getCol storageColumns _ l "stock_splits" hl
      (by simp [storageColumns]), hG_split, hsvR habsB, nrows_fillCol]
  · intro habs
    have habsC : hasCol (fillCol (fillCol (renameCols df) "dividends"
        (Val.num 0)) "stock_splits" (Val.num 0)) "stock_exchange" = false := by
      rw [hasCol_fillCol_ne _ _ _ _ (by decide),
        hasCol_fillCol_ne _ _ _ _ (by decide)]
      exact habs
    rw [selectColsList_getCol storageColumns _ l "stock_exchange" hl
      (by simp [storageColumns]), hG_exch, hevR habsC, nrows_fillCol, nrows_fillCol]

lemma process_single_file_eq (td : Val → Val) (file_name : String)
    (sc : SidecarState) (df : DF) (table : List (List Val)) (out : DF)
    (hnz : DF.nrows df ≠ 0)
    (hout : clean_dataframe td df
      (resolve_symbol_to_use (extract_stock_symbol file_name) sc).1 = some out) :
    process_single_file td file_name sc df table
      = some (true, insert_stock_data table (prepare_data_for_insert out)) := by
  simp only [process_single_file]
  rw [if_neg hnz, hout]

/-- C7: an artifact frame lacking the optional columns is reshaped with
dividends and stock_splits filled with zero, stock_exchange filled
with the None marker, and the columns returned in the canonical
storage order. -/
theorem clean_dataframe_fills_defaults (td : Val → Val) (df : DF) (sym : String)
    (hreq : requiredColsPresent df)
    (hnd : hasCol (renameCols df) "dividends" = false)
    (hns : hasCol (renameCols df) "stock_splits" = false)
    (hnx : hasCol (renameCols df) "stock_exchange" = false) :
    ∃ out, clean_dataframe td df sym = some out
      ∧ out.cols.map Prod.fst = storageColumns
      ∧ getCol out "dividends"
          = some (List.replicate (renameCols df).nrows (Val.num 0))
      ∧ getCol out "stock_splits"
          = some (List.replicate (renameCols df).nrows (Val.num 0))
      ∧ getCol out "stock_exchange"
          = some (List.replicate (renameCols df).nrows Val.null) := by
  obtain ⟨out, h1, h2, _, h4, h5, h6⟩ := clean_dataframe_spec td df sym hreq
  exact ⟨out, h1, h2, h4 hnd, h5 hns, h6 hnx⟩

theorem clean_dataframe_fills_defaults_witness :
    requiredColsPresent sampleArtifactDF
    ∧ hasCol (renameCols sampleArtifactDF) "dividends" = false
    ∧ hasCol (renameCols sampleArtifactDF) "stock_splits" = false
    ∧ hasCol (renameCols sampleArtifactDF) "stock_exchange" = false
    ∧ (∃ out, clean_dataframe (fun v => v) sampleArtifactDF "RELIANCE.NS" = some out
        ∧ out.cols.map Prod.fst = storageColumns
        ∧ getCol out "dividends"
            = some (List.replicate (renameCols sampleArtifactDF).nrows (Val.num 0))
        ∧ getCol out "stock_splits"
            = some (List.replicate (renameCols sampleArtifactDF).nrows (Val.num 0))
        ∧ getCol out "stock_exchange"
            = some (List.replicate (renameCols sampleArtifactDF).nrows Val.null)) :=
  ⟨by decide, by decide, by decide, by decide,
    clean_dataframe_fills_defaults (fun v => v) sampleArtifactDF "RELIANCE.NS"
      (by decide) (by decide) (by decide) (by decide)⟩

/-- C5: with a parsed sidecar carrying descriptive_symbol s, the rows
are persisted under s; with an unreadable or absent sidecar the loader
falls back to the base symbol from the artifact name and continues —
every sidecar state yields a normal completion of the artifact. -/
theorem sidecar_fallback_resolution (td : Val → Val) (file_name s : String)
    (fields : List (String × String)) (df : DF) (table : List (List Val))
    (hreq : requiredColsPresent df) (hnz : DF.nrows df ≠ 0)
    (hfield : lookupField fields "descriptive_symbol" = some s) :
    ∃ outS outB,
      clean_dataframe td df s = some outS
      ∧ clean_dataframe td df (extract_stock_symbol file_name) = some outB
      ∧ getCol outS "stock_symbol"
          = some (List.replicate (renameCols df).nrows (Val.str s))
      ∧ getCol outB "stock_symbol"
          = some (List.replicate (renameCols df).nrows
              (Val.str (extract_stock_symbol file_name)))
      ∧ process_single_file td file_name (SidecarState.object fields) df table
          = some (true, insert_stock_data table (prepare_data_for_insert outS))
      ∧ process_single_file td file_name SidecarState.unreadable df table
          = some (true, insert_stock_data table (prepare_data_for_insert outB))
      ∧ process_single_file td file_name SidecarState.absent df table
          = some (true, insert_stock_data table (prepare_data_for_insert outB)) := by
  obtain ⟨outS, hS1, _, hS3, _, _, _⟩ := clean_dataframe_spec td df s hreq
  obtain ⟨outB, hB1, _, hB3, _, _, _⟩ :=
    clean_dataframe_spec td df (extract_stock_symbol file_name) hreq
  refine ⟨outS, outB, hS1, hB1, hS3, hB3, ?_, ?_, ?_⟩
  · refine process_single_file_eq td file_name _ df table outS hnz ?_
    show clean_dataframe td df
      ((lookupField fields "descriptive_symbol").getD
        (extract_stock_symbol file_name)) = some outS
    rw [hfield]
    exact hS1
  · exact process_single_file_eq td file_name _ df table outB hnz hB1
  · exact process_single_file_eq td file_name _ df table outB hnz hB1

theorem sidecar_fallback_resolution_witness :
    requiredColsPresent sampleArtifactDF
    ∧ DF.nrows sampleArtifactDF ≠ 0
    ∧ lookupField [("descriptive_symbol", "Reliance Industries")]
        "descriptive_symbol" = some "Reliance Industries"
    ∧ (∃ outS outB,
        clean_dataframe (fun v => v) sampleArtifactDF "Reliance Industries" = some outS
        ∧ clean_dataframe (fun v => v) sampleArtifactDF
            (extract_stock_symbol "RELIANCE.NS_daily_ohlc.csv") = some outB
        ∧ getCol outS "stock_symbol"
            = some (List.replicate (renameCols sampleArtifactDF).nrows
                (Val.str "Reliance Industries"))
        ∧ getCol outB "stock_symbol"
            = some (List.replicate (renameCols sampleArtifactDF).nrows
                (Val.str (extract_stock_symbol "RELIANCE.NS_daily_ohlc.csv")))
        ∧ process_single_file (fun v => v) "RELIANCE.NS_daily_ohlc.csv"
            (SidecarState.object [("descriptive_symbol", "Reliance Industries")])
            sampleArtifactDF []
            = some (true, insert_stock_data [] (prepare_data_for_insert outS))
        ∧ process_single_file (fun v => v) "RELIANCE.NS_daily_ohlc.csv"
            SidecarState.unreadable sampleArtifactDF []
            = some (true, insert_stock_data [] (prepare_data_for_insert outB))
        ∧ process_single_file (fun v => v) "RELIANCE.NS_daily_ohlc.csv"
            SidecarState.absent sampleArtifactDF []
            = some (true, insert_stock_data [] (prepare_data_for_insert outB))) :=
  ⟨by decide, by decide, rfl,
    sidecar_fallback_resolution (fun v => v) "RELIANCE.NS_daily_ohlc.csv"
      "Reliance Industries" [("descriptive_symbol", "Reliance Industries")]
      sampleArtifactDF [] (by decide) (by decide) rfl⟩

/-- C10: a sidecar that parses as a JSON object without the key
descriptive_symbol resolves silently (no warning, unlike the
unreadable case) to the base symbol from the artifact name, and the
rows are persisted under that base symbol. -/
theorem sidecar_missing_key_silent_fallback (td : Val → Val) (file_name : String)
    (fields : List (String × String)) (df : DF) (table : List (List Val))
    (hreq : requiredColsPresent df) (hnz : DF.nrows df ≠ 0)
    (hmiss : lookupField fields "descriptive_symbol" = none) :
    resolve_symbol_to_use (extract_stock_symbol file_name)
        (SidecarState.object fields) = (extract_stock_symbol file_name, false)
    ∧ (resolve_symbol_to_use (extract_stock_symbol file_name)
        SidecarState.unreadable).2 = true
    ∧ ∃ out, clean_dataframe td df (extract_stock_symbol file_name) = some out
        ∧ getCol out "stock_symbol"
            = some (List.replicate (renameCols df).nrows
                (Val.str (extract_stock_symbol file_name)))
        ∧ process_single_file td file_name (SidecarState.object fields) df table
            = some (true, insert_stock_data table (prepare_data_for_insert out)) := by
  have hres : resolve_symbol_to_use (extract_stock_symbol file_name)
      (SidecarState.object fields) = (extract_stock_symbol file_name, false) := by
    simp [resolve_symbol_to_use, hmiss]
  obtain ⟨out, h1, _, h3, _, _, _⟩ :=
    clean_dataframe_spec td df (extract_stock_symbol file_name) hreq
  refine ⟨hres, rfl, out, h1, h3, ?_⟩
  refine process_single_file_eq td file_name _ df table out hnz ?_
  rw [hres]
  exact h1

theorem sidecar_missing_key_silent_fallback_witness :
    requiredColsPresent sampleArtifactDF
    ∧ DF.nrows sampleArtifactDF ≠ 0
    ∧ lookupField [("note", "no descriptive symbol here")]
        "descriptive_symbol" = none
    ∧ (resolve_symbol_to_use (extract_stock_symbol "AAPL_daily_ohlc.csv")
        (SidecarState.object [("note", "no descriptive symbol here")])
          = (extract_stock_symbol "AAPL_daily_ohlc.csv", false)
      ∧ (resolve_symbol_to_use (extract_stock_symbol "AAPL_daily_ohlc.csv")
          SidecarState.unreadable).2 = true
      ∧ ∃ out, clean_dataframe (fun v => v) sampleArtifactDF
            (extract_stock_symbol "AAPL_daily_ohlc.csv") = some out
          ∧ getCol out "stock_symbol"
              = some (List.replicate (renameCols sampleArtifactDF).nrows
                  (Val.str (extract_stock_symbol "AAPL_daily_ohlc.csv")))
          ∧ process_single_file (fun v => v) "AAPL_daily_ohlc.csv"
              (SidecarState.object [("note", "no descriptive symbol here")])
              sampleArtifactDF []
              = some (true, insert_stock_data []
                  (prepare_data_for_insert out))) :=
  ⟨by decide, by decide, rfl,
    sidecar_missing_key_silent_fallback (fun v => v) "AAPL_daily_ohlc.csv"
      [("note", "no descriptive symbol here")] sampleArtifactDF []
      (by decide) (by decide) rfl⟩

/-- C9: when the fetch stage fails at the process level, the
orchestrator exits with a non-zero code and the load stage is never
started. -/
theorem fetch_failure_blocks_load_stage (fetch_outcome load_outcome : ScriptOutcome)
    (h : run_script fetch_outcome = false) :
    (main_pipeline fetch_outcome load_outcome).1 = false
    ∧ (main_pipeline fetch_outcome load_outcome).2 ≠ 0 := by
  simp [main_pipeline, h]

theorem fetch_failure_blocks_load_stage_witness :
    run_script (ScriptOutcome.processFailed 1 "" "boom") = false
    ∧ (main_pipeline (ScriptOutcome.processFailed 1 "" "boom")
        (ScriptOutcome.completed "" "")).1 = false
    ∧ (main_pipeline (ScriptOutcome.processFailed 1 "" "boom")
        (ScriptOutcome.completed "" "")).2 ≠ 0 :=
  ⟨rfl, fetch_failure_blocks_load_stage (ScriptOutcome.processFailed 1 "" "boom")
    (ScriptOutcome.completed "" "") rfl⟩

theorem fetch_failure_skips_symbol_witness :
    ((fun (_ : String) (_ : Int) (_ : Int) => HistResult.raises) "AAPL"
        (effective_target_date 20000 0 "SnP")
        (effective_target_date 20000 0 "SnP" + 1) = HistResult.raises
      ∨ ∃ df, (fun (_ : String) (_ : Int) (_ : Int) => HistResult.raises) "AAPL"
            (effective_target_date 20000 0 "SnP")
            (effective_target_date 20000 0 "SnP" + 1) = HistResult.ok df
          ∧ df.index = [])
    ∧ (fetch_ohlc_data
          ((fun (_ : String) (_ : Int) (_ : Int) => HistResult.raises) "AAPL")
          "AAPL" (effective_target_date 20000 0 "SnP")
          (effective_target_date 20000 0 "SnP") = none
      ∧ run (fun (_ : String) (_ : Int) (_ : Int) => HistResult.raises)
            ([("RELIANCE.NS", "NSE")] ++ ("AAPL", "SnP") :: []) 20000 0
            "nifty_500_data"
          = run (fun (_ : String) (_ : Int) (_ : Int) => HistResult.raises)
              [("RELIANCE.NS", "NSE")] 20000 0 "nifty_500_data"
            ++ run (fun (_ : String) (_ : Int) (_ : Int) => HistResult.raises)
              [] 20000 0 "nifty_500_data") :=
  ⟨Or.inl rfl,
    fetch_failure_skips_symbol
      (fun (_ : String) (_ : Int) (_ : Int) => HistResult.raises)
      [("RELIANCE.NS", "NSE")] [] "AAPL" "SnP" "nifty_500_data" 20000 0
      (Or.inl rfl)⟩
